import Mathlib

/-!
Verification development for the StudyFlow AI study planner
(Scheduling & Calendar-Synchronization Engine plus its React frontend).

Time is measured in minutes since an epoch; a calendar day is 1440 minutes.
The backend scheduling engine (Session Placement Planner, Busy-Interval
Resolver, Credential Session) is modelled from the specification, since the
repository ships only the frontend; the frontend API client and Dashboard
handlers are translated directly from the JavaScript source.
-/

namespace StudyFlow

/-- Minutes in one calendar day. -/
def minutesPerDay : Nat := 1440

/-- Calendar day index of a timestamp (minutes since epoch). -/
def dayOf (t : Nat) : Nat := t / minutesPerDay

/-- A half-open time interval `[start, stop)`, in minutes since epoch.
Used for both busy blocks and free slots. -/
structure TimeInterval where
  start : Nat
  stop : Nat
deriving Repr, DecidableEq

/-- Two intervals do not overlap: one ends at or before the other starts. -/
def IntervalDisjoint (a b : TimeInterval) : Prop :=
  a.stop ≤ b.start ∨ b.stop ≤ a.start

instance (a b : TimeInterval) : Decidable (IntervalDisjoint a b) := by
  unfold IntervalDisjoint; infer_instance

/-- Interval `a` is fully contained in interval `b`. -/
def Within (a b : TimeInterval) : Prop :=
  b.start ≤ a.start ∧ a.stop ≤ b.stop

instance (a b : TimeInterval) : Decidable (Within a b) := by
  unfold Within; infer_instance

/-- Task priority: high, medium or low. -/
inductive Priority where
  | high
  | medium
  | low
deriving Repr, DecidableEq

/-- Numeric rank of a priority, higher rank means more urgent. -/
def priorityRank : Priority → Nat
  | .high => 2
  | .medium => 1
  | .low => 0

/-- A study task consumed read-only by the planner. -/
structure StudyTask where
  id : Nat
  durationMinutes : Nat
  priority : Priority
  deadline : Nat
deriving Repr, DecidableEq

/-- User preferences supplied once per planning run. -/
structure UserPreferences where
  sessionLengthMinutes : Nat
  breakFrequencyMinutes : Nat
  dailyStudyHoursCap : Nat
  bufferDays : Nat
  allowWeekends : Bool
deriving Repr

/-- The assignment of one study task to one concrete time interval. -/
structure Placement where
  task : StudyTask
  interval : TimeInterval
deriving Repr, DecidableEq

/-- Result of a planning run: placed sessions and the tasks that could not
be placed. -/
structure PlanResult where
  placements : List Placement
  unplaced : List StudyTask
deriving Repr, DecidableEq

/-- Modelled from the spec (Session Placement Planner, §4.4): sort key for
tasks — deadline ascending, priority descending as tiebreak. `taskBefore a b`
holds when `a` may come at or before `b`. -/
def taskBefore (a b : StudyTask) : Bool :=
  decide (a.deadline < b.deadline) ||
    (decide (a.deadline = b.deadline) &&
      decide (priorityRank b.priority ≤ priorityRank a.priority))

/-- Insert a task into an already sorted list, before the first element it
may precede; keeps equal-key elements in their existing order. -/
def insertTask (t : StudyTask) : List StudyTask → List StudyTask
  | [] => [t]
  | u :: us => if taskBefore t u then t :: u :: us else u :: insertTask t us

/-- Modelled from the spec (§4.4 step 1): stable insertion sort of tasks by
(deadline ascending, priority descending). -/
def sortTasks : List StudyTask → List StudyTask
  | [] => []
  | t :: ts => insertTask t (sortTasks ts)

/-- Modelled from the spec (§4.4 step 3): latest permissible end expressed as
a calendar-day cutoff, `deadline - bufferDays` in day units. -/
def cutoffDay (t : StudyTask) (prefs : UserPreferences) : Nat :=
  dayOf t.deadline - prefs.bufferDays

/-- Modelled from the spec (§4.4 step 6): proportional break time consumed
from slot capacity after a placed block, one minute of rest per
`breakFrequencyMinutes` of study. -/
def breakAfter (prefs : UserPreferences) (duration : Nat) : Nat :=
  if prefs.breakFrequencyMinutes = 0 then 0
  else duration / prefs.breakFrequencyMinutes

/-- Modelled from the spec (§4.4 step 3): a slot qualifies for a task when it
(a) ends before the day cutoff, (b) has enough continuous remaining capacity,
and (c) does not push that day over the daily cap. `acc` is the running
per-day accumulated study minutes. -/
def slotFits (prefs : UserPreferences) (acc : Nat → Nat) (t : StudyTask)
    (s : TimeInterval) : Prop :=
  dayOf s.stop ≤ cutoffDay t prefs ∧
    s.start + t.durationMinutes ≤ s.stop ∧
    acc (dayOf s.start) + t.durationMinutes ≤ prefs.dailyStudyHoursCap * 60

instance (prefs : UserPreferences) (acc : Nat → Nat) (t : StudyTask)
    (s : TimeInterval) : Decidable (slotFits prefs acc t s) := by
  unfold slotFits; infer_instance

/-- Modelled from the spec (§4.4 steps 3–4): scan the free slots in order for
the first qualifying slot, carve the placement out of its front, shrink the
slot past the block plus its break, and charge the day counter. Returns
`none` when no slot qualifies. -/
def placeOne (prefs : UserPreferences) (t : StudyTask) :
    List TimeInterval → (Nat → Nat) →
      Option (Placement × List TimeInterval × (Nat → Nat))
  | [], _ => none
  | s :: rest, acc =>
    if slotFits prefs acc t s then
      some (⟨t, ⟨s.start, s.start + t.durationMinutes⟩⟩,
        ⟨min (s.start + t.durationMinutes + breakAfter prefs t.durationMinutes)
          s.stop, s.stop⟩ :: rest,
        fun d => if d = dayOf s.start then acc d + t.durationMinutes else acc d)
    else
      match placeOne prefs t rest acc with
      | none => none
      | some (p, rest1, acc1) => some (p, s :: rest1, acc1)

/-- Modelled from the spec (§4.4 steps 2–5): place each task of an already
sorted list in turn, threading the shrinking slots and day counters;
unplaceable tasks are collected, never dropped. -/
def placeSorted (prefs : UserPreferences) :
    List StudyTask → List TimeInterval → (Nat → Nat) → PlanResult
  | [], _, _ => ⟨[], []⟩
  | t :: ts, slots, acc =>
    match placeOne prefs t slots acc with
    | none =>
      let r := placeSorted prefs ts slots acc
      ⟨r.placements, t :: r.unplaced⟩
    | some (p, slots1, acc1) =>
      let r := placeSorted prefs ts slots1 acc1
      ⟨p :: r.placements, r.unplaced⟩

/-- Modelled from the spec (§4.4, Session Placement Planner, absent from the
shipped frontend-only sources): `placeTasks(tasks, freeSlots, preferences)`
sorts the tasks and places them into the free slots. -/
def placeTasks (tasks : List StudyTask) (freeSlots : List TimeInterval)
    (prefs : UserPreferences) : PlanResult :=
  placeSorted prefs (sortTasks tasks) freeSlots (fun _ => 0)

/-- Total minutes of study placed on calendar day `d`. -/
def dailySum (ps : List Placement) (d : Nat) : Nat :=
  ps.foldr (fun p n =>
    (if dayOf p.interval.start = d then p.task.durationMinutes else 0) + n) 0

/-- Insert an interval into a list sorted by start time. -/
def insertByStart (a : TimeInterval) : List TimeInterval → List TimeInterval
  | [] => [a]
  | b :: l => if a.start ≤ b.start then a :: b :: l else b :: insertByStart a l

/-- Insertion sort of intervals by start time. -/
def sortByStart : List TimeInterval → List TimeInterval
  | [] => []
  | a :: l => insertByStart a (sortByStart l)

/-- Modelled from the spec (§4.2, Busy-Interval Resolver, absent from the
shipped frontend-only sources): fold over start-sorted intervals, joining two
intervals whenever the second starts at or before the first ends. -/
def mergeGo : List TimeInterval → List TimeInterval
  | [] => []
  | [a] => [a]
  | a :: b :: rest =>
    if b.start ≤ a.stop then mergeGo (⟨a.start, max a.stop b.stop⟩ :: rest)
    else a :: mergeGo (b :: rest)
termination_by l => l.length

/-- Modelled from the spec (§4.2): merge overlapping or adjacent busy
intervals into a separated, chronologically ordered list. -/
def mergeIntervals (l : List TimeInterval) : List TimeInterval :=
  mergeGo (sortByStart l)

/-- OAuth-style token pair owned by the Credential Session. -/
structure CredentialSession where
  accessToken : Nat
  refreshToken : Nat
  expiryTimestamp : Nat
deriving Repr, DecidableEq

/-- The single error kind of the Credential Session. -/
inductive AuthError where
  | authExpired
deriving Repr, DecidableEq

/-- Outcome of one `getValidToken` call: the result surfaced to the caller,
the cached credential state afterwards (`none` means cleared), and the
number of refresh exchanges attempted against the provider. -/
structure TokenOutcome where
  result : Except AuthError Nat
  state : Option CredentialSession
  refreshAttempts : Nat
deriving Repr

/-- Modelled from the spec (§4.1, Credential Session, absent from the shipped
frontend-only sources): `getValidToken` returns the cached token while
`now < expiryTimestamp - safetyMarginSeconds`; otherwise it performs exactly
one refresh exchange, whose provider response is `refreshResult`
(`some (token, expiry)` on success, `none` when the refresh token is
rejected). On success the cache is updated; on rejection `AuthExpired` is
surfaced and the cached state cleared. -/
def getValidToken (now safetyMargin : Nat) (s : CredentialSession)
    (refreshResult : Option (Nat × Nat)) : TokenOutcome :=
  if now < s.expiryTimestamp - safetyMargin then
    ⟨.ok s.accessToken, some s, 0⟩
  else
    match refreshResult with
    | some (tok, exp) =>
      ⟨.ok tok, some ⟨tok, s.refreshToken, exp⟩, 1⟩
    | none => ⟨.error .authExpired, none, 1⟩

/-- A JavaScript error value as the frontend sees it: either an axios error
carrying an optional HTTP response status, or a plain `Error` with a
message. -/
inductive JsError where
  | axios (status : Option Nat) (payload : Nat)
  | plain (msg : String)
deriving Repr, DecidableEq

/-- The JavaScript check `error.response?.status === 401`. -/
def is401 : JsError → Bool
  | .axios (some 401) _ => true
  | _ => false

/-- From `src/frontend/src/services/api.js`, `canvasAPI.getAssignments`:
on a 401 response the stored `canvas_auth` key is removed and a fresh error
with the reconnect message is thrown; any other failure is re-thrown
unchanged with the store untouched. `resp` is the outcome of the underlying
`api.get` call and `store` the set of localStorage keys present. -/
def getAssignments (resp : Except JsError Nat) (store : List String) :
    Except JsError Nat × List String :=
  match resp with
  | .ok d => (.ok d, store)
  | .error e =>
    if is401 e then
      (.error (.plain "Canvas authentication expired. Please reconnect."),
        store.filter (fun k => k ≠ "canvas_auth"))
    else (.error e, store)

/-- From `src/frontend/src/services/api.js`, `canvasAPI.getCourseAssignments`:
identical 401 handling, parameterised by the course id of the request. -/
def getCourseAssignments (courseId : Nat) (resp : Except JsError Nat)
    (store : List String) : Except JsError Nat × List String :=
  match resp with
  | .ok d => (.ok d, store)
  | .error e =>
    if is401 e then
      (.error (.plain "Canvas authentication expired. Please reconnect."),
        store.filter (fun k => k ≠ "canvas_auth"))
    else (.error e, store)

/-- From `src/frontend/src/services/api.js`, `canvasAPI.getCourses`:
identical 401 handling. -/
def getCourses (resp : Except JsError Nat) (store : List String) :
    Except JsError Nat × List String :=
  match resp with
  | .ok d => (.ok d, store)
  | .error e =>
    if is401 e then
      (.error (.plain "Canvas authentication expired. Please reconnect."),
        store.filter (fun k => k ≠ "canvas_auth"))
    else (.error e, store)

/-- Dashboard component state relevant to `handleGenerateStudyPlan`. -/
structure DashState where
  error : Option String
  studyPlan : Option Nat
  activeTab : String
deriving Repr, DecidableEq

/-- Outcome of one `studyPlanAPI.generatePlan` request: a response whose
`study_plan.tasks` is present (`hasTasks = true`) or missing, or a thrown
error with a message. -/
inductive GenResult where
  | ok (plan : Nat) (hasTasks : Bool)
  | err (msg : String)
deriving Repr, DecidableEq

/-- Substring search over character lists: the needle occurs somewhere in the
haystack. -/
def containsSub (needle : List Char) : List Char → Bool
  | [] => needle.isEmpty
  | c :: rest => needle.isPrefixOf (c :: rest) || containsSub needle rest

/-- The JavaScript check of `Dashboard.jsx`, spelled
`err.message.includes(...)` with the literal `invalid model`. -/
def includesInvalidModel (msg : String) : Bool :=
  containsSub "invalid model".toList msg.toList

/-- Catch block of `handleGenerateStudyPlan` (Dashboard.jsx lines 73–88):
record the failure message, and when it contains `invalid model`, retry the
`generatePlan` call once, overwriting the error on a valid retry response. -/
def handleGenFailure (msg : String) (responses : Nat → GenResult)
    (st : DashState) : DashState × Nat :=
  let st1 : DashState :=
    { st with error := some ("Failed to generate study plan: " ++ msg) }
  if includesInvalidModel msg then
    match responses 1 with
    | .ok p true =>
      ({ st1 with
          error := none
          studyPlan := some p
          activeTab := "studyplan" }, 2)
    | .ok _ false => (st1, 2)
    | .err msg2 =>
      let retryMsg := "Failed to generate study plan after retry: " ++ msg2
      ({ st1 with error := some retryMsg }, 2)
  else (st1, 1)

/-- From `src/frontend/src/components/Dashboard.jsx`,
`handleGenerateStudyPlan`: with no assignments it only sets the error text;
otherwise it issues one `generatePlan` request and, when that fails with a
message containing `invalid model`, silently issues exactly one retry.
`responses` gives the outcome of the k-th request; the returned `Nat` counts
requests issued. -/
def handleGenerateStudyPlan (assignments : List Nat)
    (responses : Nat → GenResult) (st : DashState) : DashState × Nat :=
  if assignments.isEmpty then
    ({ st with error := some "No assignments to generate a study plan from" }, 0)
  else
    match responses 0 with
    | .ok p true =>
      ({ st with
          error := none
          studyPlan := some p
          activeTab := "studyplan" }, 1)
    | .ok _ false =>
      handleGenFailure "Received invalid study plan from server" responses st
    | .err msg => handleGenFailure msg responses st

lemma within_refl (a : TimeInterval) : Within a a := ⟨Nat.le_refl _, Nat.le_refl _⟩

lemma within_trans {a b c : TimeInterval} (h1 : Within a b) (h2 : Within b c) :
    Within a c := by
  unfold Within at *; omega

lemma intervalDisjoint_symm {a b : TimeInterval} (h : IntervalDisjoint a b) :
    IntervalDisjoint b a := by
  unfold IntervalDisjoint at *; omega

lemma within_disjoint_left {a b c : TimeInterval} (h1 : Within a b)
    (h2 : IntervalDisjoint b c) : IntervalDisjoint a c := by
  unfold Within IntervalDisjoint at *; omega

lemma within_disjoint_right {a b c : TimeInterval} (h1 : Within a b)
    (h2 : IntervalDisjoint c b) : IntervalDisjoint c a := by
  unfold Within IntervalDisjoint at *; omega

lemma dayOf_mono {a b : Nat} (h : a ≤ b) : dayOf a ≤ dayOf b :=
  Nat.div_le_div_right h

/-- Everything `placeOne` promises about a successful placement: the task is
the requested one, the block is carved from the front of a qualifying slot,
the new slots are shrunken old slots, the day counter is charged on the
block's day, and, when the slots were pairwise disjoint, the block is
disjoint from all remaining capacity and the new slots stay disjoint. -/
lemma placeOne_sound (prefs : UserPreferences) (t : StudyTask) :
    ∀ (slots : List TimeInterval) (acc : Nat → Nat) (p : Placement)
      (slots1 : List TimeInterval) (acc1 : Nat → Nat),
      placeOne prefs t slots acc = some (p, slots1, acc1) →
      p.task = t ∧
      (∃ s ∈ slots, p.interval = ⟨s.start, s.start + t.durationMinutes⟩ ∧
        slotFits prefs acc t s) ∧
      (∀ x ∈ slots1, ∃ s ∈ slots, Within x s) ∧
      (∀ d, acc1 d =
        if d = dayOf p.interval.start then acc d + t.durationMinutes else acc d) ∧
      (List.Pairwise IntervalDisjoint slots →
        (∀ x ∈ slots1, IntervalDisjoint p.interval x) ∧
        List.Pairwise IntervalDisjoint slots1) := by
  intro slots
  induction slots with
  | nil => intro acc p slots1 acc1 h; simp [placeOne] at h
  | cons s rest ih =>
    intro acc p slots1 acc1 h
    by_cases hfit : slotFits prefs acc t s
    · rw [placeOne, if_pos hfit] at h
      simp only [Option.some.injEq, Prod.mk.injEq] at h
      obtain ⟨hp, hs1, ha1⟩ := h
      subst hp; subst hs1; subst ha1
      have hb := hfit.2.1
      have hw1 : Within ⟨min (s.start + t.durationMinutes +
          breakAfter prefs t.durationMinutes) s.stop, s.stop⟩ s := by
        refine ⟨?_, Nat.le_refl _⟩
        show s.start ≤ min (s.start + t.durationMinutes +
          breakAfter prefs t.durationMinutes) s.stop
        omega
      have hend : s.start + t.durationMinutes ≤
          min (s.start + t.durationMinutes + breakAfter prefs t.durationMinutes)
            s.stop := by omega
      refine ⟨rfl, ⟨s, List.mem_cons_self .., rfl, hfit⟩, ?_, ?_, ?_⟩
      · intro x hx
        rcases List.mem_cons.mp hx with hx | hx
        · exact ⟨s, List.mem_cons_self .., hx ▸ hw1⟩
        · exact ⟨x, List.mem_cons_of_mem _ hx, within_refl x⟩
      · intro d; rfl
      · intro hpw
        have hwp : Within ⟨s.start, s.start + t.durationMinutes⟩ s :=
          ⟨Nat.le_refl _, hfit.2.1⟩
        constructor
        · intro x hx
          rcases List.mem_cons.mp hx with hx | hx
          · subst hx; exact Or.inl hend
          · exact within_disjoint_left hwp ((List.pairwise_cons.mp hpw).1 x hx)
        · refine List.pairwise_cons.mpr ⟨?_, (List.pairwise_cons.mp hpw).2⟩
          intro x hx
          exact within_disjoint_left hw1 ((List.pairwise_cons.mp hpw).1 x hx)
    · rw [placeOne, if_neg hfit] at h
      rcases hrec : placeOne prefs t rest acc with _ | ⟨p0, rest1, acc0⟩
      · rw [hrec] at h; simp at h
      · rw [hrec] at h
        simp only [Option.some.injEq, Prod.mk.injEq] at h
        obtain ⟨hp, hs1, ha1⟩ := h
        subst hp; subst hs1; subst ha1
        obtain ⟨htask, ⟨s0, hs0, hiv, hfits0⟩, hcont, hacc, hdisj⟩ :=
          ih acc p0 rest1 acc0 hrec
        refine ⟨htask, ⟨s0, List.mem_cons_of_mem _ hs0, hiv, hfits0⟩, ?_, hacc, ?_⟩
        · intro x hx
          rcases List.mem_cons.mp hx with hx | hx
          · exact ⟨s, List.mem_cons_self .., hx ▸ within_refl x⟩
          · obtain ⟨s2, hs2, hw⟩ := hcont x hx
            exact ⟨s2, List.mem_cons_of_mem _ hs2, hw⟩
        · intro hpw
          obtain ⟨hhead, htail⟩ := List.pairwise_cons.mp hpw
          obtain ⟨hdall, hdpw⟩ := hdisj htail
          have hwp : Within p0.interval s0 := by
            rw [hiv]; exact ⟨Nat.le_refl _, hfits0.2.1⟩
          constructor
          · intro x hx
            rcases List.mem_cons.mp hx with hx | hx
            · subst hx
              exact within_disjoint_left hwp
                (intervalDisjoint_symm (hhead s0 hs0))
            · exact hdall x hx
          · refine List.pairwise_cons.mpr ⟨?_, hdpw⟩
            intro x hx
            obtain ⟨s2, hs2, hw⟩ := hcont x hx
            exact within_disjoint_right hw (hhead s2 hs2)

/-- Unfolding equation for `dailySum` on a cons cell. -/
lemma dailySum_cons (p : Placement) (ps : List Placement) (d : Nat) :
    dailySum (p :: ps) d =
      (if dayOf p.interval.start = d then p.task.durationMinutes else 0) +
        dailySum ps d := rfl

/-- Every placement of `placeSorted` lies inside one of the supplied slots. -/
lemma placeSorted_within (prefs : UserPreferences) :
    ∀ (ts : List StudyTask) (slots : List TimeInterval) (acc : Nat → Nat)
      (p : Placement), p ∈ (placeSorted prefs ts slots acc).placements →
      ∃ s ∈ slots, Within p.interval s := by
  intro ts
  induction ts with
  | nil => intro slots acc p hp; simp [placeSorted] at hp
  | cons t ts ih =>
    intro slots acc p hp
    rcases hrec : placeOne prefs t slots acc with _ | ⟨p0, slots1, acc1⟩
    · simp only [placeSorted, hrec] at hp
      exact ih slots acc p hp
    · simp only [placeSorted, hrec] at hp
      obtain ⟨htask, ⟨s0, hs0, hiv, hfits⟩, hcont, haccEq, hdisj⟩ :=
        placeOne_sound prefs t slots acc p0 slots1 acc1 hrec
      rcases List.mem_cons.mp hp with hp | hp
      · subst hp
        exact ⟨s0, hs0, by rw [hiv]; exact ⟨Nat.le_refl _, hfits.2.1⟩⟩
      · obtain ⟨x, hx, hw⟩ := ih slots1 acc1 p hp
        obtain ⟨s2, hs2, hw2⟩ := hcont x hx
        exact ⟨s2, hs2, within_trans hw hw2⟩

/-- Every placement of `placeSorted` ends by its task's day cutoff. -/
lemma placeSorted_cutoff (prefs : UserPreferences) :
    ∀ (ts : List StudyTask) (slots : List TimeInterval) (acc : Nat → Nat)
      (p : Placement), p ∈ (placeSorted prefs ts slots acc).placements →
      dayOf p.interval.stop ≤ cutoffDay p.task prefs := by
  intro ts
  induction ts with
  | nil => intro slots acc p hp; simp [placeSorted] at hp
  | cons t ts ih =>
    intro slots acc p hp
    rcases hrec : placeOne prefs t slots acc with _ | ⟨p0, slots1, acc1⟩
    · simp only [placeSorted, hrec] at hp
      exact ih slots acc p hp
    · simp only [placeSorted, hrec] at hp
      obtain ⟨htask, ⟨s0, hs0, hiv, hfits⟩, hcont, haccEq, hdisj⟩ :=
        placeOne_sound prefs t slots acc p0 slots1 acc1 hrec
      rcases List.mem_cons.mp hp with hp | hp
      · subst hp
        have h1 : p.interval.stop ≤ s0.stop := by rw [hiv]; exact hfits.2.1
        rw [htask]
        exact Nat.le_trans (dayOf_mono h1) hfits.1
      · exact ih slots1 acc1 p hp

/-- Every task given to `placeSorted` is either placed or reported
unplaced. -/
lemma placeSorted_partition (prefs : UserPreferences) :
    ∀ (ts : List StudyTask) (slots : List TimeInterval) (acc : Nat → Nat)
      (t : StudyTask), t ∈ ts →
      (∃ p ∈ (placeSorted prefs ts slots acc).placements, p.task = t) ∨
        t ∈ (placeSorted prefs ts slots acc).unplaced := by
  intro ts
  induction ts with
  | nil => intro slots acc t ht; simp at ht
  | cons u ts ih =>
    intro slots acc t ht
    rcases hrec : placeOne prefs u slots acc with _ | ⟨p0, slots1, acc1⟩
    · simp only [placeSorted, hrec]
      rcases List.mem_cons.mp ht with ht | ht
      · subst ht; exact Or.inr (List.mem_cons_self ..)
      · rcases ih slots acc t ht with ⟨p, hp, hpt⟩ | hun
        · exact Or.inl ⟨p, hp, hpt⟩
        · exact Or.inr (List.mem_cons_of_mem _ hun)
    · simp only [placeSorted, hrec]
      obtain ⟨htask, _, _, _, _⟩ :=
        placeOne_sound prefs u slots acc p0 slots1 acc1 hrec
      rcases List.mem_cons.mp ht with ht | ht
      · subst ht; exact Or.inl ⟨p0, List.mem_cons_self .., htask⟩
      · rcases ih slots1 acc1 t ht with ⟨p, hp, hpt⟩ | hun
        · exact Or.inl ⟨p, List.mem_cons_of_mem _ hp, hpt⟩
        · exact Or.inr hun

/-- The per-day study minutes placed by `placeSorted`, on top of an under-cap
accumulator, never exceed the daily cap. -/
lemma placeSorted_daily (prefs : UserPreferences) :
    ∀ (ts : List StudyTask) (slots : List TimeInterval) (acc : Nat → Nat),
      (∀ d, acc d ≤ prefs.dailyStudyHoursCap * 60) →
      ∀ d, acc d + dailySum (placeSorted prefs ts slots acc).placements d ≤
        prefs.dailyStudyHoursCap * 60 := by
  intro ts
  induction ts with
  | nil =>
    intro slots acc hacc d
    simpa [placeSorted, dailySum] using hacc d
  | cons t ts ih =>
    intro slots acc hacc d
    rcases hrec : placeOne prefs t slots acc with _ | ⟨p0, slots1, acc1⟩
    · simp only [placeSorted, hrec]
      exact ih slots acc hacc d
    · simp only [placeSorted, hrec]
      obtain ⟨htask, ⟨s0, hs0, hiv, hfits⟩, hcont, haccEq, hdisj⟩ :=
        placeOne_sound prefs t slots acc p0 slots1 acc1 hrec
      have hcap : acc (dayOf p0.interval.start) + t.durationMinutes ≤
          prefs.dailyStudyHoursCap * 60 := by
        rw [hiv]; exact hfits.2.2
      have hacc1 : ∀ d0, acc1 d0 ≤ prefs.dailyStudyHoursCap * 60 := by
        intro d0
        rw [haccEq d0]
        by_cases hd : d0 = dayOf p0.interval.start
        · rw [if_pos hd, hd]; exact hcap
        · rw [if_neg hd]; exact hacc d0
      have hih := ih slots1 acc1 hacc1 d
      rw [dailySum_cons, htask]
      by_cases hd : dayOf p0.interval.start = d
      · rw [if_pos hd]
        have he : acc1 d = acc d + t.durationMinutes := by
          rw [haccEq d, if_pos hd.symm]
        omega
      · rw [if_neg hd]
        have he : acc1 d = acc d := by
          rw [haccEq d, if_neg (fun hh => hd hh.symm)]
        omega

/-- With pairwise disjoint input slots, the placements of `placeSorted` are
pairwise disjoint. -/
lemma placeSorted_disjoint (prefs : UserPreferences) :
    ∀ (ts : List StudyTask) (slots : List TimeInterval) (acc : Nat → Nat),
      List.Pairwise IntervalDisjoint slots →
      List.Pairwise
        (fun p q : Placement => IntervalDisjoint p.interval q.interval)
        (placeSorted prefs ts slots acc).placements := by
  intro ts
  induction ts with
  | nil => intro slots acc hpw; simp [placeSorted]
  | cons t ts ih =>
    intro slots acc hpw
    rcases hrec : placeOne prefs t slots acc with _ | ⟨p0, slots1, acc1⟩
    · simp only [placeSorted, hrec]
      exact ih slots acc hpw
    · simp only [placeSorted, hrec]
      obtain ⟨htask, ⟨s0, hs0, hiv, hfits⟩, hcont, haccEq, hdisj⟩ :=
        placeOne_sound prefs t slots acc p0 slots1 acc1 hrec
      obtain ⟨hdall, hpw1⟩ := hdisj hpw
      refine List.pairwise_cons.mpr ⟨?_, ih slots1 acc1 hpw1⟩
      intro q hq
      obtain ⟨x, hx, hwq⟩ := placeSorted_within prefs ts slots1 acc1 q hq
      exact within_disjoint_right hwq (hdall x hx)

/-- Membership is preserved by `insertTask`. -/
lemma mem_insertTask {x t : StudyTask} {l : List StudyTask} :
    x ∈ insertTask t l ↔ x = t ∨ x ∈ l := by
  induction l with
  | nil => simp [insertTask]
  | cons u us ih =>
    rw [insertTask]
    by_cases hb : taskBefore t u = true
    · rw [if_pos hb]; simp [List.mem_cons]
    · rw [if_neg hb]; simp [List.mem_cons, ih]; tauto

/-- `sortTasks` preserves membership. -/
lemma mem_sortTasks {x : StudyTask} {l : List StudyTask} :
    x ∈ sortTasks l ↔ x ∈ l := by
  induction l with
  | nil => simp [sortTasks]
  | cons t ts ih => rw [sortTasks, mem_insertTask]; simp [ih]

/-- C1: in every run of `placeTasks` over pairwise disjoint free slots, no
two produced placements occupy overlapping time intervals — after sorting
chronologically each interval ends at or before the next begins, which is
exactly pairwise disjointness. -/
theorem placeTasks_no_overlap (tasks : List StudyTask)
    (freeSlots : List TimeInterval) (prefs : UserPreferences)
    (h : List.Pairwise IntervalDisjoint freeSlots) :
    List.Pairwise
      (fun p q : Placement => IntervalDisjoint p.interval q.interval)
      (placeTasks tasks freeSlots prefs).placements :=
  placeSorted_disjoint prefs (sortTasks tasks) freeSlots (fun _ => 0) h

/-- Witness for C1 on a concrete run: one free slot, two tasks, and the two
resulting placements are disjoint. -/
theorem placeTasks_no_overlap_witness :
    List.Pairwise IntervalDisjoint [(⟨540, 720⟩ : TimeInterval)] ∧
    List.Pairwise
      (fun p q : Placement => IntervalDisjoint p.interval q.interval)
      (placeTasks [⟨1, 60, .high, 7200⟩, ⟨2, 90, .low, 7200⟩]
        [⟨540, 720⟩] ⟨60, 0, 8, 1, true⟩).placements :=
  ⟨by decide,
    placeTasks_no_overlap [⟨1, 60, .high, 7200⟩, ⟨2, 90, .low, 7200⟩]
      [⟨540, 720⟩] ⟨60, 0, 8, 1, true⟩ (by decide)⟩

/-- C2: every placement of `placeTasks` ends, in day units, at least
`bufferDays` before its task's deadline, and every input task is either
placed or returned in the unplaced list — never placed past its deadline
buffer and never silently dropped. -/
theorem placeTasks_deadline_buffer (tasks : List StudyTask)
    (freeSlots : List TimeInterval) (prefs : UserPreferences) :
    (∀ p ∈ (placeTasks tasks freeSlots prefs).placements,
      dayOf p.interval.stop ≤ dayOf p.task.deadline - prefs.bufferDays) ∧
    (∀ t ∈ tasks,
      (∃ p ∈ (placeTasks tasks freeSlots prefs).placements, p.task = t) ∨
        t ∈ (placeTasks tasks freeSlots prefs).unplaced) := by
  constructor
  · intro p hp
    exact placeSorted_cutoff prefs (sortTasks tasks) freeSlots (fun _ => 0) p hp
  · intro t ht
    exact placeSorted_partition prefs (sortTasks tasks) freeSlots (fun _ => 0) t
      (mem_sortTasks.mpr ht)

/-- Witness for C2 on a concrete run: the produced placement ends on day 0,
four days before its task's day-5 deadline minus the one-day buffer. -/
theorem placeTasks_deadline_buffer_witness :
    (⟨⟨1, 60, .high, 7200⟩, ⟨540, 600⟩⟩ : Placement) ∈
      (placeTasks [⟨1, 60, .high, 7200⟩] [⟨540, 720⟩]
        ⟨60, 0, 8, 1, true⟩).placements ∧
    dayOf (⟨⟨1, 60, .high, 7200⟩, ⟨540, 600⟩⟩ : Placement).interval.stop ≤
      dayOf (⟨⟨1, 60, .high, 7200⟩, ⟨540, 600⟩⟩ : Placement).task.deadline - 1 :=
  ⟨by decide,
    (placeTasks_deadline_buffer [⟨1, 60, .high, 7200⟩] [⟨540, 720⟩]
      ⟨60, 0, 8, 1, true⟩).1 ⟨⟨1, 60, .high, 7200⟩, ⟨540, 600⟩⟩ (by decide)⟩

/-- C3: every placement of `placeTasks` is fully contained in one of the free
intervals handed to the planner, i.e. in a free interval computed before
placement began — a placement never overlaps busy time. -/
theorem placeTasks_within_free (tasks : List StudyTask)
    (freeSlots : List TimeInterval) (prefs : UserPreferences) :
    ∀ p ∈ (placeTasks tasks freeSlots prefs).placements,
      ∃ s ∈ freeSlots, Within p.interval s := by
  intro p hp
  exact placeSorted_within prefs (sortTasks tasks) freeSlots (fun _ => 0) p hp

/-- Witness for C3 on a concrete run: the produced placement `[540, 630)`
lies inside the supplied free slot `[540, 720)`. -/
theorem placeTasks_within_free_witness :
    (⟨⟨2, 90, .low, 7200⟩, ⟨540, 630⟩⟩ : Placement) ∈
      (placeTasks [⟨2, 90, .low, 7200⟩] [⟨540, 720⟩]
        ⟨60, 0, 8, 1, true⟩).placements ∧
    ∃ s ∈ [(⟨540, 720⟩ : TimeInterval)],
      Within (⟨⟨2, 90, .low, 7200⟩, ⟨540, 630⟩⟩ : Placement).interval s :=
  ⟨by decide,
    placeTasks_within_free [⟨2, 90, .low, 7200⟩] [⟨540, 720⟩]
      ⟨60, 0, 8, 1, true⟩ ⟨⟨2, 90, .low, 7200⟩, ⟨540, 630⟩⟩ (by decide)⟩

/-- C5: on every calendar day, the total study minutes placed by `placeTasks`
never exceed `dailyStudyHoursCap * 60`; in particular two 90-minute tasks can
never both land on one day under a 120-minute cap. -/
theorem placeTasks_daily_cap (tasks : List StudyTask)
    (freeSlots : List TimeInterval) (prefs : UserPreferences) (d : Nat) :
    dailySum (placeTasks tasks freeSlots prefs).placements d ≤
      prefs.dailyStudyHoursCap * 60 := by
  have h := placeSorted_daily prefs (sortTasks tasks) freeSlots (fun _ => 0)
    (fun _ => Nat.zero_le _) d
  simpa using h

/-- Modelled from the spec (§4.4): the planner's processing order as a
relation — earlier deadline first, higher priority first on equal
deadlines. -/
def taskOrder (a b : StudyTask) : Prop :=
  a.deadline < b.deadline ∨
    (a.deadline = b.deadline ∧
      priorityRank b.priority ≤ priorityRank a.priority)

lemma taskBefore_iff {a b : StudyTask} :
    taskBefore a b = true ↔ taskOrder a b := by
  simp [taskBefore, taskOrder]

lemma taskOrder_total {a b : StudyTask} (h : ¬ taskOrder a b) :
    taskOrder b a := by
  unfold taskOrder at *; omega

lemma taskOrder_trans {a b c : StudyTask} (h1 : taskOrder a b)
    (h2 : taskOrder b c) : taskOrder a c := by
  unfold taskOrder at *; omega

lemma pairwise_insertTask {t : StudyTask} {l : List StudyTask}
    (h : List.Pairwise taskOrder l) :
    List.Pairwise taskOrder (insertTask t l) := by
  induction l with
  | nil => simp [insertTask]
  | cons u us ih =>
    rw [insertTask]
    obtain ⟨hu, hus⟩ := List.pairwise_cons.mp h
    by_cases hb : taskBefore t u = true
    · rw [if_pos hb]
      have htu : taskOrder t u := taskBefore_iff.mp hb
      refine List.pairwise_cons.mpr ⟨?_, h⟩
      intro x hx
      rcases List.mem_cons.mp hx with hx | hx
      · subst hx; exact htu
      · exact taskOrder_trans htu (hu x hx)
    · rw [if_neg hb]
      have hut : taskOrder u t :=
        taskOrder_total (fun hc => hb (taskBefore_iff.mpr hc))
      refine List.pairwise_cons.mpr ⟨?_, ih hus⟩
      intro x hx
      rcases mem_insertTask.mp hx with hx | hx
      · subst hx; exact hut
      · exact hu x hx

lemma sortTasks_sorted (l : List StudyTask) :
    List.Pairwise taskOrder (sortTasks l) := by
  induction l with
  | nil => simp [sortTasks]
  | cons t ts ih => rw [sortTasks]; exact pairwise_insertTask ih

lemma insertTask_perm (t : StudyTask) (l : List StudyTask) :
    List.Perm (insertTask t l) (t :: l) := by
  induction l with
  | nil => simp [insertTask]
  | cons u us ih =>
    rw [insertTask]
    by_cases hb : taskBefore t u = true
    · rw [if_pos hb]
    · rw [if_neg hb]
      exact List.Perm.trans (List.Perm.cons u ih) (List.Perm.swap t u us)

lemma sortTasks_perm (l : List StudyTask) : List.Perm (sortTasks l) l := by
  induction l with
  | nil => simp [sortTasks]
  | cons t ts ih =>
    rw [sortTasks]
    exact List.Perm.trans (insertTask_perm t (sortTasks ts)) (List.Perm.cons t ih)

/-- Selector for the tasks with one particular (deadline, priority) key. -/
def keyMatch (dl : Nat) (pr : Priority) (t : StudyTask) : Bool :=
  decide (t.deadline = dl) && decide (t.priority = pr)

lemma keyMatch_before {dl : Nat} {pr : Priority} {a b : StudyTask}
    (ha : keyMatch dl pr a = true) (hb : keyMatch dl pr b = true) :
    taskBefore a b = true := by
  simp [keyMatch] at ha hb
  simp [taskBefore, ha.1, hb.1, ha.2, hb.2]

lemma filter_insertTask (dl : Nat) (pr : Priority) (t : StudyTask)
    (l : List StudyTask) :
    (insertTask t l).filter (keyMatch dl pr) =
      if keyMatch dl pr t then t :: l.filter (keyMatch dl pr)
      else l.filter (keyMatch dl pr) := by
  induction l with
  | nil =>
    by_cases hkt : keyMatch dl pr t = true <;> simp [insertTask, hkt]
  | cons u us ih =>
    rw [insertTask]
    by_cases hb : taskBefore t u = true
    · rw [if_pos hb]
      by_cases hkt : keyMatch dl pr t = true <;>
        simp [List.filter_cons, hkt]
    · rw [if_neg hb]
      by_cases hkt : keyMatch dl pr t = true
      · have hku : keyMatch dl pr u = false := by
          cases h2 : keyMatch dl pr u with
          | true => exact absurd (keyMatch_before hkt h2) hb
          | false => rfl
        rw [if_pos hkt]
        simp [List.filter_cons, hku, ih, hkt]
      · rw [if_neg hkt]
        simp [List.filter_cons, ih, hkt]

lemma sortTasks_stable (dl : Nat) (pr : Priority) (l : List StudyTask) :
    (sortTasks l).filter (keyMatch dl pr) = l.filter (keyMatch dl pr) := by
  induction l with
  | nil => rfl
  | cons t ts ih =>
    rw [sortTasks, filter_insertTask]
    by_cases hkt : keyMatch dl pr t = true
    · rw [if_pos hkt, ih, List.filter_cons, if_pos hkt]
    · rw [if_neg hkt, ih, List.filter_cons, if_neg hkt]

/-- C4: the planner processes tasks through the stable sort `sortTasks`: the
sorted list is ordered by deadline ascending with priority descending as the
tiebreak, is a permutation of the input, and tasks with equal deadline and
equal priority keep their original relative order (stability, stated per
key); being a pure function of the input list, the sort is deterministic. -/
theorem planner_sort_spec (tasks : List StudyTask)
    (freeSlots : List TimeInterval) (prefs : UserPreferences) :
    placeTasks tasks freeSlots prefs =
      placeSorted prefs (sortTasks tasks) freeSlots (fun _ => 0) ∧
    List.Pairwise taskOrder (sortTasks tasks) ∧
    List.Perm (sortTasks tasks) tasks ∧
    ∀ (dl : Nat) (pr : Priority),
      (sortTasks tasks).filter (keyMatch dl pr) =
        tasks.filter (keyMatch dl pr) :=
  ⟨rfl, sortTasks_sorted tasks, sortTasks_perm tasks,
    fun dl pr => sortTasks_stable dl pr tasks⟩

/-- The merged-output shape promised by the spec: consecutive intervals are
strictly separated — no overlap and no adjacency. -/
def Separated (l : List TimeInterval) : Prop :=
  List.Chain' (fun a b => a.stop < b.start) l

/-- Intervals listed in chronological order of their start times. -/
def StartSorted (l : List TimeInterval) : Prop :=
  List.Pairwise (fun a b : TimeInterval => a.start ≤ b.start) l

lemma mergeGo_head_start :
    ∀ (l : List TimeInterval) (x : TimeInterval) (xs : List TimeInterval),
      l = x :: xs →
      ∃ y ys, mergeGo l = y :: ys ∧ y.start = x.start := by
  intro l
  induction l using mergeGo.induct with
  | case1 => intro x xs h; simp at h
  | case2 a =>
    intro x xs h
    injection h with h1 h2
    subst h1
    exact ⟨a, [], by rw [mergeGo], rfl⟩
  | case3 a b rest hcond ih =>
    intro x xs h
    injection h with h1 h2
    subst h1
    obtain ⟨y, ys, hgo, hy⟩ := ih ⟨a.start, max a.stop b.stop⟩ rest rfl
    exact ⟨y, ys, by rw [mergeGo, if_pos hcond]; exact hgo, hy⟩
  | case4 a b rest hcond ih =>
    intro x xs h
    injection h with h1 h2
    subst h1
    exact ⟨a, mergeGo (b :: rest), by rw [mergeGo, if_neg hcond], rfl⟩

lemma mergeGo_start_mem :
    ∀ (l : List TimeInterval), ∀ x ∈ mergeGo l, ∃ y ∈ l, y.start = x.start := by
  intro l
  induction l using mergeGo.induct with
  | case1 => intro x hx; simp [mergeGo] at hx
  | case2 a =>
    intro x hx
    rw [mergeGo] at hx
    rcases List.mem_cons.mp hx with hx | hx
    · exact ⟨a, List.mem_cons_self .., hx ▸ rfl⟩
    · simp at hx
  | case3 a b rest hcond ih =>
    intro x hx
    rw [mergeGo, if_pos hcond] at hx
    obtain ⟨y, hy, hys⟩ := ih x hx
    rcases List.mem_cons.mp hy with hy | hy
    · refine ⟨a, List.mem_cons_self .., ?_⟩
      rw [← hys, hy]
    · exact ⟨y, List.mem_cons_of_mem _ (List.mem_cons_of_mem _ hy), hys⟩
  | case4 a b rest hcond ih =>
    intro x hx
    rw [mergeGo, if_neg hcond] at hx
    rcases List.mem_cons.mp hx with hx | hx
    · exact ⟨a, List.mem_cons_self .., hx ▸ rfl⟩
    · obtain ⟨y, hy, hys⟩ := ih x hx
      exact ⟨y, List.mem_cons_of_mem _ hy, hys⟩

lemma mergeGo_sep_sorted :
    ∀ (l : List TimeInterval), StartSorted l →
      Separated (mergeGo l) ∧ StartSorted (mergeGo l) := by
  intro l
  induction l using mergeGo.induct with
  | case1 => intro _; rw [mergeGo]; exact ⟨List.chain'_nil, List.Pairwise.nil⟩
  | case2 a =>
    intro _
    rw [mergeGo]
    exact ⟨List.chain'_singleton a, List.pairwise_singleton _ a⟩
  | case3 a b rest hcond ih =>
    intro hs
    obtain ⟨ha, hs1⟩ := List.pairwise_cons.mp hs
    obtain ⟨hb, hs2⟩ := List.pairwise_cons.mp hs1
    have hmerged : StartSorted (⟨a.start, max a.stop b.stop⟩ :: rest) := by
      refine List.pairwise_cons.mpr ⟨?_, hs2⟩
      intro x hx
      exact ha x (List.mem_cons_of_mem _ hx)
    rw [mergeGo, if_pos hcond]
    exact ih hmerged
  | case4 a b rest hcond ih =>
    intro hs
    obtain ⟨ha, hs1⟩ := List.pairwise_cons.mp hs
    obtain ⟨hsep1, hsort1⟩ := ih hs1
    obtain ⟨y, ys, hgo, hy⟩ := mergeGo_head_start (b :: rest) b rest rfl
    rw [mergeGo, if_neg hcond]
    constructor
    · rw [hgo]
      refine List.chain'_cons.mpr ⟨?_, hgo ▸ hsep1⟩
      rw [hy]; omega
    · refine List.pairwise_cons.mpr ⟨?_, hsort1⟩
      intro x hx
      obtain ⟨z, hz, hzs⟩ := mergeGo_start_mem (b :: rest) x hx
      rw [← hzs]
      exact ha z hz

lemma mergeGo_sep_id :
    ∀ (l : List TimeInterval), Separated l → mergeGo l = l := by
  intro l
  induction l with
  | nil => intro _; rw [mergeGo]
  | cons a l ih =>
    cases l with
    | nil => intro _; rw [mergeGo]
    | cons b rest =>
      intro hsep
      obtain ⟨hab, htail⟩ := List.chain'_cons.mp hsep
      rw [mergeGo, if_neg (by omega : ¬ b.start ≤ a.stop)]
      rw [ih htail]

lemma mem_insertByStart {x a : TimeInterval} {l : List TimeInterval} :
    x ∈ insertByStart a l ↔ x = a ∨ x ∈ l := by
  induction l with
  | nil => simp [insertByStart]
  | cons b bs ih =>
    rw [insertByStart]
    by_cases hb : a.start ≤ b.start
    · rw [if_pos hb]; simp [List.mem_cons]
    · rw [if_neg hb]; simp [List.mem_cons, ih]; tauto

lemma pairwise_insertByStart {a : TimeInterval} {l : List TimeInterval}
    (h : StartSorted l) : StartSorted (insertByStart a l) := by
  induction l with
  | nil => simp [insertByStart, StartSorted]
  | cons b bs ih =>
    rw [insertByStart]
    obtain ⟨hb, hbs⟩ := List.pairwise_cons.mp h
    by_cases hab : a.start ≤ b.start
    · rw [if_pos hab]
      refine List.pairwise_cons.mpr ⟨?_, h⟩
      intro x hx
      rcases List.mem_cons.mp hx with hx | hx
      · subst hx; exact hab
      · exact Nat.le_trans hab (hb x hx)
    · rw [if_neg hab]
      refine List.pairwise_cons.mpr ⟨?_, ih hbs⟩
      intro x hx
      rcases mem_insertByStart.mp hx with hx | hx
      · subst hx; omega
      · exact hb x hx

lemma sortByStart_sorted (l : List TimeInterval) : StartSorted (sortByStart l) := by
  induction l with
  | nil => simp [sortByStart, StartSorted]
  | cons a l ih => rw [sortByStart]; exact pairwise_insertByStart ih

lemma sortByStart_sorted_id :
    ∀ (l : List TimeInterval), StartSorted l → sortByStart l = l := by
  intro l
  induction l with
  | nil => intro _; rfl
  | cons a l ih =>
    intro h
    obtain ⟨ha, hl⟩ := List.pairwise_cons.mp h
    rw [sortByStart, ih hl]
    cases l with
    | nil => rfl
    | cons b rest =>
      rw [insertByStart, if_pos (ha b (List.mem_cons_self ..))]

/-- C7: merging busy intervals is idempotent — merging an already-merged set
yields the same set — and the merged output contains no overlapping or
adjacent intervals (consecutive intervals are strictly separated). -/
theorem mergeIntervals_idempotent (l : List TimeInterval) :
    mergeIntervals (mergeIntervals l) = mergeIntervals l ∧
    Separated (mergeIntervals l) := by
  obtain ⟨hsep, hsorted⟩ := mergeGo_sep_sorted (sortByStart l) (sortByStart_sorted l)
  constructor
  · show mergeGo (sortByStart (mergeIntervals l)) = mergeIntervals l
    rw [show sortByStart (mergeIntervals l) = mergeIntervals l from
      sortByStart_sorted_id _ hsorted]
    exact mergeGo_sep_id _ hsep
  · exact hsep

/-- C6: `getValidToken` returns the cached token, attempting no refresh,
while `now < expiryTimestamp - safetyMargin`; otherwise it attempts exactly
one refresh exchange — on provider success the fresh token is returned to
the caller with no error, on rejection `AuthExpired` is surfaced and the
cached credential state is cleared so the caller must re-authorize. -/
theorem getValidToken_spec (now safetyMargin : Nat) (s : CredentialSession)
    (r : Option (Nat × Nat)) :
    (getValidToken now safetyMargin s r).refreshAttempts ≤ 1 ∧
    (now < s.expiryTimestamp - safetyMargin →
      getValidToken now safetyMargin s r = ⟨.ok s.accessToken, some s, 0⟩) ∧
    (¬ now < s.expiryTimestamp - safetyMargin →
      ∀ tok exp, r = some (tok, exp) →
        getValidToken now safetyMargin s r =
          ⟨.ok tok, some ⟨tok, s.refreshToken, exp⟩, 1⟩) ∧
    (¬ now < s.expiryTimestamp - safetyMargin → r = none →
      getValidToken now safetyMargin s r = ⟨.error .authExpired, none, 1⟩) := by
  unfold getValidToken
  by_cases h : now < s.expiryTimestamp - safetyMargin
  · rw [if_pos h]
    exact ⟨Nat.zero_le 1, fun _ => rfl, fun hn => absurd h hn,
      fun hn => absurd h hn⟩
  · rw [if_neg h]
    rcases r with _ | ⟨tok, exp⟩
    · refine ⟨Nat.le_refl 1, fun hf => absurd hf h, ?_, fun _ _ => rfl⟩
      intro _ tok exp hr
      exact absurd hr (by simp)
    · refine ⟨Nat.le_refl 1, fun hf => absurd hf h, ?_, ?_⟩
      · intro _ tok2 exp2 hr
        simp only [Option.some.injEq, Prod.mk.injEq] at hr
        rw [hr.1, hr.2]
      · intro _ hr
        exact absurd hr (by simp)

/-- Witness for C6: a fresh token is served from the cache with no refresh;
an expired token with a provider-accepted refresh yields the new token; an
expired token with a rejected refresh yields `AuthExpired` and clears the
cached state. -/
theorem getValidToken_spec_witness :
    getValidToken 0 5 ⟨10, 20, 100⟩ none =
      ⟨.ok 10, some ⟨10, 20, 100⟩, 0⟩ ∧
    getValidToken 100 5 ⟨10, 20, 100⟩ (some (11, 200)) =
      ⟨.ok 11, some ⟨11, 20, 200⟩, 1⟩ ∧
    getValidToken 100 5 ⟨10, 20, 100⟩ none =
      ⟨.error .authExpired, none, 1⟩ :=
  ⟨(getValidToken_spec 0 5 ⟨10, 20, 100⟩ none).2.1 (by decide),
    (getValidToken_spec 100 5 ⟨10, 20, 100⟩ (some (11, 200))).2.2.1
      (by decide) 11 200 rfl,
    (getValidToken_spec 100 5 ⟨10, 20, 100⟩ none).2.2.2 (by decide) rfl⟩

/-- The request count of the Dashboard catch block: two requests exactly when
the failure message contains `invalid model`, one otherwise. -/
lemma handleGenFailure_snd (msg : String) (responses : Nat → GenResult)
    (st : DashState) :
    (handleGenFailure msg responses st).2 =
      if includesInvalidModel msg then 2 else 1 := by
  unfold handleGenFailure
  by_cases him : includesInvalidModel msg = true
  · rw [if_pos him, if_pos him]
    cases hre : responses 1 with
    | ok p b => cases b <;> rfl
    | err m => rfl
  · rw [if_neg him, if_neg him]

/-- C8 counterexample: a single invocation of `handleGenerateStudyPlan`
whose first `generatePlan` request fails with message `invalid model` issues
two requests — the failed remote call is silently retried inside the call,
so it is not true that every failed remote call produces exactly one attempt
per request. -/
theorem handleGenerateStudyPlan_double_attempt :
    (handleGenerateStudyPlan [1] (fun _ => .err "invalid model")
      ⟨none, none, "assignments"⟩).2 = 2 := rfl

/-- C8 amended: a failed `generatePlan` call in `handleGenerateStudyPlan` is
retried silently at most once, and only when the failure message contains
`invalid model`; every invocation issues at most two requests, and two only
in that case. -/
theorem handleGenerateStudyPlan_attempt_bound (assignments : List Nat)
    (responses : Nat → GenResult) (st : DashState) :
    (handleGenerateStudyPlan assignments responses st).2 ≤ 2 ∧
    ((handleGenerateStudyPlan assignments responses st).2 = 2 →
      ∃ msg, responses 0 = .err msg ∧ includesInvalidModel msg = true) := by
  unfold handleGenerateStudyPlan
  by_cases hemp : assignments.isEmpty = true
  · rw [if_pos hemp]
    exact ⟨Nat.zero_le 2, fun hc => absurd hc (by simp)⟩
  · rw [if_neg hemp]
    cases hre : responses 0 with
    | ok p b =>
      cases b
      · have hni : includesInvalidModel
            "Received invalid study plan from server" = false := rfl
        constructor
        · rw [handleGenFailure_snd, hni]; exact Nat.le_succ 1
        · rw [handleGenFailure_snd, hni]
          intro hc; exact absurd hc (by simp)
      · exact ⟨Nat.le_succ 1, fun hc => absurd hc (by simp)⟩
    | err msg =>
      by_cases him : includesInvalidModel msg = true
      · constructor
        · rw [handleGenFailure_snd, him]; exact Nat.le_refl 2
        · intro _; exact ⟨msg, rfl, him⟩
      · have hni : includesInvalidModel msg = false := by
          cases hm : includesInvalidModel msg
          · rfl
          · exact absurd hm him
        constructor
        · rw [handleGenFailure_snd, hni]; exact Nat.le_succ 1
        · rw [handleGenFailure_snd, hni]
          intro hc; exact absurd hc (by simp)

/-- Witness for the amended C8: on the run that triggers the silent retry,
two requests are issued and the first response is indeed an `invalid model`
failure. -/
theorem handleGenerateStudyPlan_attempt_bound_witness :
    (handleGenerateStudyPlan [1] (fun _ => .err "invalid model")
      ⟨none, none, "assignments"⟩).2 = 2 ∧
    ∃ msg, (fun _ : Nat => GenResult.err "invalid model") 0 = .err msg ∧
      includesInvalidModel msg = true :=
  ⟨rfl, (handleGenerateStudyPlan_attempt_bound [1]
    (fun _ => .err "invalid model") ⟨none, none, "assignments"⟩).2 rfl⟩

/-- C9: for each Canvas read operation — `getAssignments`,
`getCourseAssignments`, `getCourses` — a 401 response removes the stored
`canvas_auth` key and throws the reconnect error, while any non-401 error is
re-thrown unchanged with the stored credentials untouched. -/
theorem canvas_read_401_spec (payload courseId : Nat) (store : List String)
    (e : JsError) (h : is401 e = false) :
    (getAssignments (.error (.axios (some 401) payload)) store =
      (.error (.plain "Canvas authentication expired. Please reconnect."),
        store.filter (fun k => k ≠ "canvas_auth")) ∧
     getCourseAssignments courseId (.error (.axios (some 401) payload)) store =
      (.error (.plain "Canvas authentication expired. Please reconnect."),
        store.filter (fun k => k ≠ "canvas_auth")) ∧
     getCourses (.error (.axios (some 401) payload)) store =
      (.error (.plain "Canvas authentication expired. Please reconnect."),
        store.filter (fun k => k ≠ "canvas_auth"))) ∧
    (getAssignments (.error e) store = (.error e, store) ∧
     getCourseAssignments courseId (.error e) store = (.error e, store) ∧
     getCourses (.error e) store = (.error e, store)) := by
  refine ⟨⟨rfl, rfl, rfl⟩, ?_, ?_, ?_⟩
  · simp [getAssignments, h]
  · simp [getCourseAssignments, h]
  · simp [getCourses, h]

/-- Witness for C9 at a concrete 401 error, a concrete non-401 error and a
concrete store. -/
theorem canvas_read_401_spec_witness :
    is401 (JsError.plain "boom") = false ∧
    ((getAssignments (.error (.axios (some 401) 0))
        ["canvas_auth", "other"] =
      (.error (.plain "Canvas authentication expired. Please reconnect."),
        (["canvas_auth", "other"] : List String).filter
          (fun k => k ≠ "canvas_auth")) ∧
      getCourseAssignments 7 (.error (.axios (some 401) 0))
        ["canvas_auth", "other"] =
      (.error (.plain "Canvas authentication expired. Please reconnect."),
        (["canvas_auth", "other"] : List String).filter
          (fun k => k ≠ "canvas_auth")) ∧
      getCourses (.error (.axios (some 401) 0)) ["canvas_auth", "other"] =
      (.error (.plain "Canvas authentication expired. Please reconnect."),
        (["canvas_auth", "other"] : List String).filter
          (fun k => k ≠ "canvas_auth"))) ∧
     (getAssignments (.error (.plain "boom")) ["canvas_auth", "other"] =
        (.error (.plain "boom"), ["canvas_auth", "other"]) ∧
      getCourseAssignments 7 (.error (.plain "boom"))
        ["canvas_auth", "other"] =
        (.error (.plain "boom"), ["canvas_auth", "other"]) ∧
      getCourses (.error (.plain "boom")) ["canvas_auth", "other"] =
        (.error (.plain "boom"), ["canvas_auth", "other"]))) :=
  ⟨rfl, canvas_read_401_spec 0 7 ["canvas_auth", "other"]
    (.plain "boom") rfl⟩

/-- C10: invoking `handleGenerateStudyPlan` with an empty assignments list
issues no request, sets the error text to the no-assignments message and
leaves the study plan and active tab of the state unchanged. -/
theorem handleGenerateStudyPlan_no_assignments (responses : Nat → GenResult)
    (st : DashState) :
    handleGenerateStudyPlan [] responses st =
      ({ st with
          error := some "No assignments to generate a study plan from" }, 0) :=
  rfl

end StudyFlow
